import Mathlib

/-!
Shallow embedding of `brdb_optimize` (src/src/main.rs) and proofs about it.

The program reads a brdb world file, freezes wheel/ball entities, clamps
light components, neutralizes weight components on the main grid, and writes
the result as a patch to a fresh destination file.  The embedding below
translates the program's data model and control flow into Lean:

* machine `f32` values appear only in order comparisons against the exact
  constants `5000.0`, `400.0`, `0.0` and in assignments of those constants,
  so they are modelled as rationals (the denotation map is order-preserving
  on all values the program compares);
* `i32` values are modelled as integers (only compared against `0` and set
  to `0`);
* fallible library calls (`prop`, `as_brdb_f32`, ...) are modelled with
  `Except`; a Rust `unwrap()` panic is modelled as a distinguished
  `RunErr.panic` error (the process aborts either way, with exit code 101
  for a panic and 1 for an `Err` returned from `main`);
* the observable I/O of a run (chunk decode attempts, the corruption log
  line, deleting and writing the destination file) is modelled as a trace
  of `Event`s.
-/

set_option autoImplicit false

namespace BrdbOpt

/-- A brdb schema value (`BrdbValue` in the source): the program only ever
touches f32, i32, bool and nested-struct values. -/
inductive BVal where
  | f32 (q : ℚ)
  | i32 (n : ℤ)
  | bool (b : Bool)
  | strukt (fields : List (String × BVal))

/-- First-match lookup in a property table (the schema's property access). -/
def getField : List (String × BVal) → String → Option BVal
  | [], _ => none
  | (k, v) :: rest, key => if k = key then some v else getField rest key

/-- Replace the value of an existing property; a missing key is left alone
(the program only ever sets properties it has just read successfully). -/
def setField : List (String × BVal) → String → BVal → List (String × BVal)
  | [], _, _ => []
  | (k, v) :: rest, key, w =>
    if k = key then (k, w) :: rest else (k, v) :: setField rest key w

/-- `BrdbValue::prop` on a nested struct value. -/
def BVal.prop : BVal → String → Except String BVal
  | .strukt fields, key =>
    match getField fields key with
    | some v => .ok v
    | none => .error ("missing property " ++ key)
  | _, _ => .error "not a struct"

/-- `BrdbValue::set_prop` on a nested struct value. -/
def BVal.setProp : BVal → String → BVal → BVal
  | .strukt fields, key, v => .strukt (setField fields key v)
  | v, _, _ => v

/-- `as_brdb_f32`. -/
def BVal.asF32 : BVal → Except String ℚ
  | .f32 q => .ok q
  | _ => .error "not an f32"

/-- `as_brdb_i32`. -/
def BVal.asI32 : BVal → Except String ℤ
  | .i32 n => .ok n
  | _ => .error "not an i32"

/-- `as_brdb_bool`. -/
def BVal.asBool : BVal → Except String Bool
  | .bool b => .ok b
  | _ => .error "not a bool"

/-- `prop(key)?.as_brdb_i32()?` on a nested struct value. -/
def BVal.propI32 (v : BVal) (key : String) : Except String ℤ :=
  match v.prop key with
  | .ok w => w.asI32
  | .error e => .error e

/-- A component of a brick chunk: a struct-type name (`get_name`) and a
property table. -/
structure BrdbComponent where
  name : String
  fields : List (String × BVal)

/-- `component.prop(key)` -/
def BrdbComponent.prop (c : BrdbComponent) (key : String) : Except String BVal :=
  match getField c.fields key with
  | some v => .ok v
  | none => .error ("missing property " ++ key)

/-- `component.set_prop(key, v)` -/
def BrdbComponent.setProp (c : BrdbComponent) (key : String) (v : BVal) :
    BrdbComponent :=
  { c with fields := setField c.fields key v }

/-- `component.prop(key)?.as_brdb_f32()?` -/
def BrdbComponent.propF32 (c : BrdbComponent) (key : String) : Except String ℚ :=
  match c.prop key with
  | .ok v => v.asF32
  | .error e => .error e

/-- `component.prop(key)?.as_brdb_bool()?` -/
def BrdbComponent.propBool (c : BrdbComponent) (key : String) :
    Except String Bool :=
  match c.prop key with
  | .ok v => v.asBool
  | .error e => .error e

/-- Lines 197-227 of main.rs: the `BrickComponentData_WeightBrick` rule.
Zeroes each positive `MassSize` axis and a positive `Mass`; the returned
flag is the local `weight_modified`.  `prop_mut("MassSize")` hands out a
mutable reference into the component, so the mutated struct is written back
before `Mass` is read. -/
def applyWeightBrickRule (c : BrdbComponent) :
    Except String (BrdbComponent × Bool) :=
  match c.prop "MassSize" with
  | .error e => .error e
  | .ok ms0 =>
    match ms0.propI32 "X" with
    | .error e => .error e
    | .ok x =>
      let t1 := if 0 < x then (ms0.setProp "X" (BVal.i32 0), true)
                else (ms0, false)
      match t1.1.propI32 "Y" with
      | .error e => .error e
      | .ok y =>
        let t2 := if 0 < y then (t1.1.setProp "Y" (BVal.i32 0), true) else t1
        match t2.1.propI32 "Z" with
        | .error e => .error e
        | .ok z =>
          let t3 := if 0 < z then (t2.1.setProp "Z" (BVal.i32 0), true)
                    else t2
          let c1 : BrdbComponent :=
            { c with fields := setField c.fields "MassSize" t3.1 }
          match c1.propF32 "Mass" with
          | .error e => .error e
          | .ok m =>
            if 0 < m then .ok (c1.setProp "Mass" (BVal.f32 0), true)
            else .ok (c1, t3.2)

/-- Lines 230-241 of main.rs: the `BrickComponentData_WheelEngine` rule.
Zeroes a positive `CustomMass`. -/
def applyWheelEngineRule (c : BrdbComponent) :
    Except String (BrdbComponent × Bool) :=
  match c.propF32 "CustomMass" with
  | .error e => .error e
  | .ok m =>
    if 0 < m then .ok (c.setProp "CustomMass" (BVal.f32 0), true)
    else .ok (c, false)

/-- Lines 251-283 of main.rs: the light rule.  Clamps `Radius` above 5000,
clamps `Brightness` above 400 and forces `bCastShadows` off; the returned
flag is true when any of the three fired. -/
def applyLightRule (c : BrdbComponent) : Except String (BrdbComponent × Bool) :=
  match c.propF32 "Radius" with
  | .error e => .error e
  | .ok r =>
    let s1 := if 5000 < r then (c.setProp "Radius" (BVal.f32 5000), true)
              else (c, false)
    match s1.1.propF32 "Brightness" with
    | .error e => .error e
    | .ok b =>
      let s2 := if 400 < b then (s1.1.setProp "Brightness" (BVal.f32 400), true)
                else s1
      match s2.1.propBool "bCastShadows" with
      | .error e => .error e
      | .ok sh =>
        if sh then .ok (s2.1.setProp "bCastShadows" (BVal.bool false), true)
        else .ok s2

/-- The two light struct-type names (lines 252-254). -/
def isLightName (n : String) : Bool :=
  n = "BrickComponentData_PointLight" || n = "BrickComponentData_SpotLight"

/-- Lines 186-289 of main.rs: the whole per-component body of the chunk
loop.  Returns the (possibly mutated) component, the local `modified` flag,
and the amount added to the global `num_components_modified` counter.  Note
that a fired weight rule bumps the counter at line 226 *and* again through
the generic `if modified` block at lines 285-289. -/
def classifyComponent (grid : ℤ) (c : BrdbComponent) :
    Except String (BrdbComponent × Bool × ℕ) :=
  let step1 : Except String (BrdbComponent × Bool × ℕ) :=
    if grid = 1 then
      match (if c.name = "BrickComponentData_WeightBrick"
             then applyWeightBrickRule c else .ok (c, false)) with
      | .error e => .error e
      | .ok (ca, wm) =>
        match (if c.name = "BrickComponentData_WheelEngine"
               then applyWheelEngineRule ca else .ok (ca, false)) with
        | .error e => .error e
        | .ok (cb, em) => .ok (cb, wm || em, if wm then 1 else 0)
    else .ok (c, false, 0)
  match step1 with
  | .error e => .error e
  | .ok (c1, m1, extra) =>
    match (if isLightName c.name then applyLightRule c1
           else .ok (c1, false)) with
    | .error e => .error e
    | .ok (c2, lm) =>
      .ok (c2, m1 || lm, extra + if m1 || lm then 1 else 0)

/-- A simulation entity: optional numeric id, struct-type name (the first
component of `get_schema_struct`), frozen flag. -/
structure Entity where
  id : Option ℤ
  structType : String
  frozen : Bool

/-- How a run aborts: a Rust panic (exit code 101) or an `Err` propagated
out of `main` (exit code 1). -/
inductive RunErr where
  | panic (msg : String)
  | failure (msg : String)
deriving DecidableEq

/-- Rust `str::starts_with` for string patterns. -/
def strStartsWith (s pat : String) : Bool :=
  pat.toList.isPrefixOf s.toList

/-- Lines 84-98 of main.rs: the entity freezing rule.  `Entity_Wheel*` and
`Entity_Ball*` entities that are not yet frozen are frozen; the `println!`
at line 88 unwraps `entity.id`, so an id-less entity in that branch panics. -/
def freezeEntity (e : Entity) : Except RunErr (Entity × Bool) :=
  if strStartsWith e.structType "Entity_Wheel"
      || strStartsWith e.structType "Entity_Ball" then
    if !e.frozen then
      match e.id with
      | some _ => .ok ({ e with frozen := true }, true)
      | none => .error (.panic "unwrap on None (entity id)")
    else .ok (e, false)
  else .ok (e, false)

/-- Lines 79-102 of main.rs: the per-chunk entity loop.  Every entity is run
through the freeze rule and then pushed into the new SoA via
`soa.add_entity(&global_data, &entity, entity.id.unwrap() as u32)`, whose
`unwrap` panics on an id-less entity.  Returns the rewritten entity list and
the number of entities modified in this chunk. -/
def freezeEntities : List Entity → Except RunErr (List Entity × ℕ)
  | [] => .ok ([], 0)
  | e :: rest =>
    match freezeEntity e with
    | .error err => .error err
    | .ok (e1, ch) =>
      match e1.id with
      | none => .error (.panic "unwrap on None (entity id)")
      | some _ =>
        match freezeEntities rest with
        | .error err => .error err
        | .ok (es, n) => .ok (e1 :: es, (if ch then 1 else 0) + n)

/-- A brick chunk of some grid, as surfaced by `brick_chunk_index`: its
index (rendered to a string, as the program only uses its `Display` form),
its declared component count, and the result of `component_chunk` —
`none` models a decode failure (a corrupt chunk). -/
structure BrickChunk where
  coord : String
  numComponents : ℕ
  decoded : Option (List BrdbComponent)

/-- Observable I/O of one run. -/
inductive Event where
  | decodeEntityChunk (idx : ℤ)
  | decodeComponentChunk (grid : ℤ) (coord : String)
  | corruptChunk (grid : ℤ) (coord : String)
  | removeDst
  | writeDst
deriving DecidableEq

/-- The source world as the brdb reader surfaces it: the entity chunk index
with each chunk's decoded entities, the brick chunk index per grid id, and
whether a file already exists at the destination path. -/
structure World where
  entityChunks : List (ℤ × List Entity)
  brickChunks : List (ℤ × List BrickChunk)
  dstExists : Bool

/-- `db.brick_chunk_index(grid)` -/
def World.brickIndex (w : World) (g : ℤ) : List BrickChunk :=
  match w.brickChunks.lookup g with
  | some cs => cs
  | none => []

/-- Result of the entity pass (lines 64-110 of main.rs). -/
structure EntityPassOut where
  files : List (String × List Entity)
  numModified : ℕ
  trace : List Event
  err : Option RunErr

/-- Lines 64-110 of main.rs: loop over the entity chunk index, rewrite every
chunk (`{chunk}.mps`), stopping at the first panic. -/
def entityPass : List (ℤ × List Entity) → EntityPassOut
  | [] => ⟨[], 0, [], none⟩
  | (idx, es) :: rest =>
    match freezeEntities es with
    | .error err => ⟨[], 0, [Event.decodeEntityChunk idx], some err⟩
    | .ok (es1, n) =>
      let r := entityPass rest
      ⟨(toString idx ++ ".mps", es1) :: r.files, n + r.numModified,
        Event.decodeEntityChunk idx :: r.trace, r.err⟩

/-- The dynamic-grid identifiers contributed by one entity chunk
(lines 139-148 of main.rs). -/
def chunkMarkerIds (es : List Entity) : List ℤ :=
  es.filterMap fun e =>
    if e.structType = "Entity_DynamicBrickGrid" then e.id else none

/-- Lines 137-149 of main.rs: `grid_ids` starts as `vec![1]` and every
dynamic-grid marker entity that carries an id pushes it (a plain `Vec`,
nothing is deduplicated). -/
def gridIds (w : World) : List ℤ :=
  1 :: w.entityChunks.flatMap fun p => chunkMarkerIds p.2

/-- The second reading of every entity chunk (lines 138-139 of main.rs)
during grid discovery. -/
def discoveryEvents (w : World) : List Event :=
  w.entityChunks.map fun p => Event.decodeEntityChunk p.1

/-- Lines 290-297 of main.rs rewrite each chunk's component list in full;
lines 184-297: run the rule over every component of a chunk.  Returns the
rewritten components, the chunk's `num_chunk_modified`, and the total added
to `num_components_modified`. -/
def processComponentList (grid : ℤ) :
    List BrdbComponent → Except String (List BrdbComponent × ℕ × ℕ)
  | [] => .ok ([], 0, 0)
  | c :: rest =>
    match classifyComponent grid c with
    | .error e => .error e
    | .ok (c2, m, d) =>
      match processComponentList grid rest with
      | .error e => .error e
      | .ok (cs, nMod, nCnt) =>
        .ok (c2 :: cs, (if m then 1 else 0) + nMod, d + nCnt)

/-- State threaded through one grid's chunk loop (lines 161-318). -/
structure GridAcc where
  corrupted : Bool
  numComp : ℕ
  gridMod : ℕ
  files : List (String × List BrdbComponent)
  trace : List Event

/-- Lines 165-318 of main.rs: the chunk loop of one grid.  Chunks with a
zero component count are skipped without a decode attempt; a failed decode
logs the corruption, sets the `corrupted` flag and continues; a property
lookup failure aborts the whole run (`?` in `main`); a chunk is pushed to
`chunk_files` only when `num_chunk_modified > 0`. -/
def processGridChunks (grid : ℤ) :
    List BrickChunk → GridAcc → GridAcc × Option RunErr
  | [], st => (st, none)
  | ch :: rest, st =>
    if ch.numComponents = 0 then processGridChunks grid rest st
    else
      match ch.decoded with
      | none =>
        processGridChunks grid rest
          { st with
            corrupted := true
            trace := st.trace ++ [Event.decodeComponentChunk grid ch.coord,
              Event.corruptChunk grid ch.coord] }
      | some comps =>
        let st1 :=
          { st with
            trace := st.trace ++ [Event.decodeComponentChunk grid ch.coord] }
        match processComponentList grid comps with
        | .error e => (st1, some (RunErr.failure e))
        | .ok (cs, nChunk, delta) =>
          processGridChunks grid rest
            { st1 with
              numComp := st1.numComp + delta
              gridMod := st1.gridMod + nChunk
              files := st1.files ++
                if 0 < nChunk then [(ch.coord ++ ".mps", cs)] else [] }

/-- Lines 320-344 of main.rs: one grid's entry in `brick_grids_folder`,
emitted only when `num_grid_modified > 0`. -/
def gridEntry (g : ℤ) (acc : GridAcc) :
    List (String × List (String × List BrdbComponent)) :=
  if 0 < acc.gridMod then [(toString g, acc.files)] else []

/-- State threaded through the grid loop (lines 155-345). -/
structure ScanAcc where
  corrupted : Bool
  numComp : ℕ
  folder : List (String × List (String × List BrdbComponent))
  trace : List Event

/-- Lines 158-345 of main.rs: the loop over all collected grid ids. -/
def processGrids (w : World) : List ℤ → ScanAcc → ScanAcc × Option RunErr
  | [], st => (st, none)
  | g :: rest, st =>
    match processGridChunks g (w.brickIndex g)
        ⟨st.corrupted, st.numComp, 0, [], st.trace⟩ with
    | (acc, some e) =>
      (⟨acc.corrupted, acc.numComp, st.folder, acc.trace⟩, some e)
    | (acc, none) =>
      processGrids w rest
        ⟨acc.corrupted, acc.numComp, st.folder ++ gridEntry g acc, acc.trace⟩

/-- How a run ends: `ok` carries the entity patch files, the brick grids
folder of the components patch and both modification counters; `corrupt` is
the `process::exit(1)` at line 352; `fail` is an abort (panic or error
return from `main`). -/
inductive Outcome where
  | ok (entFiles : List (String × List Entity))
      (folder : List (String × List (String × List BrdbComponent)))
      (numEntities numComponents : ℕ)
  | corrupt
  | fail (e : RunErr)

/-- Process exit code for each outcome (Rust: `process::exit(1)`, `Err`
from `main` exits 1, a panic exits 101). -/
def exitCode : Outcome → ℕ
  | .ok _ _ _ _ => 0
  | .corrupt => 1
  | .fail (.failure _) => 1
  | .fail (.panic _) => 101

/-- The whole program, lines 44-397 of main.rs: entity pass, grid
discovery, component scan, the corruption gate at line 349, then delete
any stale destination and write the combined patch. -/
def run (w : World) : Outcome × List Event :=
  let ep := entityPass w.entityChunks
  match ep.err with
  | some e => (Outcome.fail e, ep.trace)
  | none =>
    let tr2 := ep.trace ++ discoveryEvents w
    match processGrids w (gridIds w) ⟨false, 0, [], tr2⟩ with
    | (st, some e) => (Outcome.fail e, st.trace)
    | (st, none) =>
      if st.corrupted then (Outcome.corrupt, st.trace)
      else
        (Outcome.ok ep.files st.folder ep.numModified st.numComp,
          st.trace ++ (if w.dstExists then [Event.removeDst] else [])
            ++ [Event.writeDst])

/-- A filesystem path: directory components plus a final file name. -/
structure RustPath where
  dir : List String
  fileName : String

/-- Index of the dot starting the final extension of a file name, following
Rust's `Path::file_stem`/`extension` rules: a lone leading dot does not
start an extension. -/
def lastDotIdx (cs : List Char) : Option ℕ :=
  match ((List.range cs.length).filter fun i => cs.getD i ' ' = '.').getLast? with
  | some 0 => none
  | some i => some i
  | none => none

/-- Rust `Path::file_stem` (on a path with a file name). -/
def fileStem (s : String) : String :=
  match lastDotIdx s.toList with
  | none => s
  | some i => String.mk (s.toList.take i)

/-- Rust `Path::extension` (on a path with a file name). -/
def extension (s : String) : Option String :=
  match lastDotIdx s.toList with
  | none => none
  | some i => some (String.mk (s.toList.drop (i + 1)))

/-- Rust `Path::with_file_name`: replace the final component. -/
def withFileName (p : RustPath) (name : String) : RustPath :=
  { p with fileName := name }

/-- Lines 40-42 of main.rs: the destination path is
`src.with_file_name(format!("{stem}.optimized.brdb"))`. -/
def dstPath (src : RustPath) : RustPath :=
  withFileName src (fileStem src.fileName ++ ".optimized.brdb")

/-- Modelled from the spec: "Output file path is derived by inserting an
`.optimized` qualifier before the file's final extension" — that is, the
final extension of the source file name is preserved after the qualifier.
This definition follows the spec's words; the code's own derivation is
`dstPath`. -/
def specDstFileName (name : String) : String :=
  match extension name with
  | some ext => fileStem name ++ ".optimized." ++ ext
  | none => fileStem name ++ ".optimized"

/-! ### Property-table lemmas -/

theorem getField_setField_of_ne :
    ∀ (l : List (String × BVal)) (k k' : String) (v : BVal), k ≠ k' →
      getField (setField l k v) k' = getField l k'
  | [], _, _, _, _ => rfl
  | (a, b) :: rest, k, k', v, h => by
    simp only [setField]
    by_cases hak : a = k
    · subst hak
      simp only [if_pos rfl, getField, if_neg h]
    · simp only [if_neg hak, getField]
      by_cases hak' : a = k'
      · rw [if_pos hak', if_pos hak']
      · rw [if_neg hak', if_neg hak', getField_setField_of_ne rest k k' v h]

theorem getField_setField_self :
    ∀ (l : List (String × BVal)) (k : String) (v w : BVal),
      getField l k = some w → getField (setField l k v) k = some v
  | [], _, _, _, h => by simp [getField] at h
  | (a, b) :: rest, k, v, w, h => by
    simp only [setField]
    by_cases hak : a = k
    · subst hak
      simp [getField]
    · simp only [getField, if_neg hak] at h ⊢
      exact getField_setField_self rest k v w h

theorem prop_eq_ok {c : BrdbComponent} {k : String} {v : BVal} :
    c.prop k = .ok v ↔ getField c.fields k = some v := by
  unfold BrdbComponent.prop
  cases h : getField c.fields k <;> simp

theorem asF32_eq_ok {v : BVal} {q : ℚ} : v.asF32 = .ok q ↔ v = .f32 q := by
  cases v <;> simp [BVal.asF32]

theorem asI32_eq_ok {v : BVal} {n : ℤ} : v.asI32 = .ok n ↔ v = .i32 n := by
  cases v <;> simp [BVal.asI32]

theorem asBool_eq_ok {v : BVal} {b : Bool} : v.asBool = .ok b ↔ v = .bool b := by
  cases v <;> simp [BVal.asBool]

theorem propF32_eq_ok {c : BrdbComponent} {k : String} {q : ℚ} :
    c.propF32 k = .ok q ↔ getField c.fields k = some (BVal.f32 q) := by
  unfold BrdbComponent.propF32
  cases h : c.prop k with
  | ok v =>
    rw [prop_eq_ok] at h
    rw [h]
    simp [asF32_eq_ok]
  | error e =>
    unfold BrdbComponent.prop at h
    cases hg : getField c.fields k <;> rw [hg] at h <;> simp_all

theorem propBool_eq_ok {c : BrdbComponent} {k : String} {b : Bool} :
    c.propBool k = .ok b ↔ getField c.fields k = some (BVal.bool b) := by
  unfold BrdbComponent.propBool
  cases h : c.prop k with
  | ok v =>
    rw [prop_eq_ok] at h
    rw [h]
    simp [asBool_eq_ok]
  | error e =>
    unfold BrdbComponent.prop at h
    cases hg : getField c.fields k <;> rw [hg] at h <;> simp_all

theorem valProp_eq_ok {fs : List (String × BVal)} {k : String} {v : BVal} :
    (BVal.strukt fs).prop k = .ok v ↔ getField fs k = some v := by
  unfold BVal.prop
  cases h : getField fs k <;> simp [h]

theorem valPropI32_eq_ok {fs : List (String × BVal)} {k : String} {n : ℤ} :
    (BVal.strukt fs).propI32 k = .ok n ↔ getField fs k = some (BVal.i32 n) := by
  unfold BVal.propI32
  cases h : (BVal.strukt fs).prop k with
  | ok v =>
    rw [valProp_eq_ok] at h
    rw [h]
    simp [asI32_eq_ok]
  | error e =>
    have hnone : getField fs k = none := by
      cases hg : getField fs k with
      | none => rfl
      | some v =>
        have h2 := valProp_eq_ok.mpr hg
        rw [h2] at h
        exact Except.noConfusion h
    rw [hnone]
    simp

theorem setProp_fields (c : BrdbComponent) (k : String) (v : BVal) :
    (c.setProp k v).fields = setField c.fields k v := rfl

theorem setProp_name (c : BrdbComponent) (k : String) (v : BVal) :
    (c.setProp k v).name = c.name := rfl

theorem propF32_setProp_ne {c : BrdbComponent} {k k' : String} {v : BVal}
    {q : ℚ} (h : k ≠ k') (hq : getField c.fields k' = some (BVal.f32 q)) :
    (c.setProp k v).propF32 k' = .ok q := by
  rw [propF32_eq_ok, setProp_fields, getField_setField_of_ne _ _ _ _ h]
  exact hq

theorem propBool_setProp_ne {c : BrdbComponent} {k k' : String} {v : BVal}
    {b : Bool} (h : k ≠ k') (hb : getField c.fields k' = some (BVal.bool b)) :
    (c.setProp k v).propBool k' = .ok b := by
  rw [propBool_eq_ok, setProp_fields, getField_setField_of_ne _ _ _ _ h]
  exact hb

/-! ### The light rule (claim C5) -/

theorem applyLightRule_spec (c : BrdbComponent) (r b : ℚ) (s : Bool)
    (hr : getField c.fields "Radius" = some (BVal.f32 r))
    (hb : getField c.fields "Brightness" = some (BVal.f32 b))
    (hs : getField c.fields "bCastShadows" = some (BVal.bool s)) :
    ∃ c2, applyLightRule c
        = .ok (c2, (decide (5000 < r) || decide (400 < b) || s))
      ∧ getField c2.fields "Radius"
        = some (BVal.f32 (if 5000 < r then 5000 else r))
      ∧ getField c2.fields "Brightness"
        = some (BVal.f32 (if 400 < b then 400 else b))
      ∧ getField c2.fields "bCastShadows" = some (BVal.bool false)
      ∧ c2.name = c.name := by
  have h1 : c.propF32 "Radius" = Except.ok r := propF32_eq_ok.mpr hr
  obtain ⟨cA, hAeq, hAr, hAb, hAs, hAname⟩ : ∃ cA,
      (if 5000 < r then (c.setProp "Radius" (BVal.f32 5000), true)
       else (c, false)) = (cA, decide (5000 < r))
      ∧ getField cA.fields "Radius"
        = some (BVal.f32 (if 5000 < r then 5000 else r))
      ∧ getField cA.fields "Brightness" = some (BVal.f32 b)
      ∧ getField cA.fields "bCastShadows" = some (BVal.bool s)
      ∧ cA.name = c.name := by
    by_cases hR : 5000 < r
    · refine ⟨c.setProp "Radius" (BVal.f32 5000), by simp [hR], ?_, ?_, ?_, rfl⟩
      · rw [setProp_fields]
        simp [hR, getField_setField_self _ _ _ _ hr]
      · rw [setProp_fields, getField_setField_of_ne _ _ _ _ (by decide)]
        exact hb
      · rw [setProp_fields, getField_setField_of_ne _ _ _ _ (by decide)]
        exact hs
    · exact ⟨c, by simp [hR], by simp [hR, hr], hb, hs, rfl⟩
  obtain ⟨cB, hBeq, hBr, hBb, hBs, hBname⟩ : ∃ cB,
      (if 400 < b then (cA.setProp "Brightness" (BVal.f32 400), true)
       else (cA, decide (5000 < r)))
        = (cB, decide (5000 < r) || decide (400 < b))
      ∧ getField cB.fields "Radius"
        = some (BVal.f32 (if 5000 < r then 5000 else r))
      ∧ getField cB.fields "Brightness"
        = some (BVal.f32 (if 400 < b then 400 else b))
      ∧ getField cB.fields "bCastShadows" = some (BVal.bool s)
      ∧ cB.name = c.name := by
    by_cases hB : 400 < b
    · refine ⟨cA.setProp "Brightness" (BVal.f32 400), by simp [hB], ?_, ?_, ?_, ?_⟩
      · rw [setProp_fields, getField_setField_of_ne _ _ _ _ (by decide)]
        exact hAr
      · rw [setProp_fields]
        simp [hB, getField_setField_self _ _ _ _ hAb]
      · rw [setProp_fields, getField_setField_of_ne _ _ _ _ (by decide)]
        exact hAs
      · rw [setProp_name]
        exact hAname
    · exact ⟨cA, by simp [hB], hAr, by simp [hB, hAb], hAs, hAname⟩
  have hB' : cA.propF32 "Brightness" = Except.ok b := propF32_eq_ok.mpr hAb
  have hS' : cB.propBool "bCastShadows" = Except.ok s := propBool_eq_ok.mpr hBs
  have hmain : applyLightRule c
      = (if s then .ok (cB.setProp "bCastShadows" (BVal.bool false), true)
         else .ok (cB, decide (5000 < r) || decide (400 < b))) := by
    simp only [applyLightRule, h1, hAeq, hB', hBeq, hS']
  cases s with
  | true =>
    refine ⟨cB.setProp "bCastShadows" (BVal.bool false), ?_, ?_, ?_, ?_, ?_⟩
    · rw [hmain]
      simp
    · rw [setProp_fields, getField_setField_of_ne _ _ _ _ (by decide)]
      exact hBr
    · rw [setProp_fields, getField_setField_of_ne _ _ _ _ (by decide)]
      exact hBb
    · rw [setProp_fields]
      exact getField_setField_self _ _ _ _ hBs
    · rw [setProp_name]
      exact hBname
  | false =>
    refine ⟨cB, ?_, hBr, hBb, hBs, hBname⟩
    rw [hmain]
    simp

theorem lightRuleClassify (g : ℤ) (c : BrdbComponent)
    (hn : isLightName c.name = true) {x : BrdbComponent × Bool}
    (hL : applyLightRule c = .ok x) :
    classifyComponent g c = .ok (x.1, x.2, if x.2 then 1 else 0) := by
  have hname : c.name = "BrickComponentData_PointLight"
      ∨ c.name = "BrickComponentData_SpotLight" := by
    simpa [isLightName] using hn
  have hw : ¬ c.name = "BrickComponentData_WeightBrick" := by
    rcases hname with h | h <;> rw [h] <;> decide
  have he : ¬ c.name = "BrickComponentData_WheelEngine" := by
    rcases hname with h | h <;> rw [h] <;> decide
  unfold classifyComponent
  by_cases hg : g = 1
  · simp [hg, hw, he, hn, hL]
  · simp [hg, hn, hL]

/-- Claim C5: for every component on any grid whose struct-type is a
PointLight or SpotLight type, `Radius` is clamped to 5000 iff it was
strictly above 5000, `Brightness` is clamped to 400 iff it was strictly
above 400, `bCastShadows` ends up false (set iff it was true), the three
edits fire independently and the component's changed flag is the logical
OR of the three. -/
theorem lightClampCorrect (g : ℤ) (c : BrdbComponent) (r b : ℚ) (s : Bool)
    (hn : isLightName c.name = true)
    (hr : getField c.fields "Radius" = some (BVal.f32 r))
    (hb : getField c.fields "Brightness" = some (BVal.f32 b))
    (hs : getField c.fields "bCastShadows" = some (BVal.bool s)) :
    ∃ c2 d, classifyComponent g c
        = .ok (c2, (decide (5000 < r) || decide (400 < b) || s), d)
      ∧ getField c2.fields "Radius"
        = some (BVal.f32 (if 5000 < r then 5000 else r))
      ∧ getField c2.fields "Brightness"
        = some (BVal.f32 (if 400 < b then 400 else b))
      ∧ getField c2.fields "bCastShadows" = some (BVal.bool false) := by
  obtain ⟨c2, heq, hRr, hRb, hRs, _⟩ := applyLightRule_spec c r b s hr hb hs
  exact ⟨c2, _, lightRuleClassify g c hn heq, hRr, hRb, hRs⟩

/-- Claim C5 witness: a PointLight with Radius 6000, Brightness 300 and
bCastShadows on, processed on grid 2. -/
def exLight : BrdbComponent :=
  ⟨"BrickComponentData_PointLight",
    [("Radius", BVal.f32 6000), ("Brightness", BVal.f32 300),
      ("bCastShadows", BVal.bool true)]⟩

theorem lightClampCorrectWitness :
    ∃ c2 d, classifyComponent 2 exLight = .ok (c2, true, d)
      ∧ getField c2.fields "Radius" = some (BVal.f32 5000)
      ∧ getField c2.fields "Brightness" = some (BVal.f32 300)
      ∧ getField c2.fields "bCastShadows" = some (BVal.bool false) := by
  obtain ⟨c2, d, h1, h2, h3, h4⟩ :=
    lightClampCorrect 2 exLight 6000 300 true rfl rfl rfl rfl
  refine ⟨c2, d, ?_, ?_, ?_, h4⟩
  · rw [show (decide ((5000 : ℚ) < 6000) || decide ((400 : ℚ) < 300) || true)
        = true by rfl] at h1
    exact h1
  · rw [if_pos (by norm_num : (5000 : ℚ) < 6000)] at h2
    exact h2
  · rw [if_neg (by norm_num : ¬ (400 : ℚ) < 300)] at h3
    exact h3

/-! ### The entity freeze rule (claims C4, C7) -/

/-- Claim C4 counterexample: an unfrozen `Entity_Wheel*` entity without an
id makes the rule panic (the `println!` at line 88 unwraps `entity.id`)
instead of freezing it and reporting a change. -/
theorem freezeRuleCounterexample :
    freezeEntity ⟨none, "Entity_Wheel01", false⟩
      = .error (RunErr.panic "unwrap on None (entity id)") := rfl

/-- Claim C4 (amended): for every entity carrying a numeric identifier
whose struct-type starts with the case-sensitive prefix `Entity_Wheel` or
`Entity_Ball`, if `frozen = false` the rule sets `frozen = true` and
reports a change, an already frozen one is left unchanged with no change
reported, and every entity of any other struct-type passes through
unchanged (an id-less unfrozen matching entity instead panics, see the
counterexample). -/
theorem freezeRuleCorrect (e : Entity) (i : ℤ) (hid : e.id = some i) :
    ((strStartsWith e.structType "Entity_Wheel"
        || strStartsWith e.structType "Entity_Ball") = true →
      (e.frozen = false →
        freezeEntity e = .ok ({ e with frozen := true }, true))
      ∧ (e.frozen = true → freezeEntity e = .ok (e, false)))
    ∧ ((strStartsWith e.structType "Entity_Wheel"
        || strStartsWith e.structType "Entity_Ball") = false →
      freezeEntity e = .ok (e, false)) := by
  unfold freezeEntity
  refine ⟨fun hm => ⟨fun hf => ?_, fun hf => ?_⟩, fun hm => ?_⟩
  · simp [hm, hf, hid]
  · simp [hm, hf]
  · simp [hm]

theorem freezeRuleCorrectWitness :
    freezeEntity ⟨some 7, "Entity_Wheel01", false⟩
      = .ok (⟨some 7, "Entity_Wheel01", true⟩, true) :=
  ((freezeRuleCorrect ⟨some 7, "Entity_Wheel01", false⟩ 7 rfl).1 (by decide)).1 rfl

theorem freezeEntity_error (e : Entity) (err : RunErr)
    (h : freezeEntity e = .error err) :
    err = RunErr.panic "unwrap on None (entity id)" := by
  unfold freezeEntity at h
  split at h
  · split at h
    · split at h
      · exact absurd h (by simp)
      · simp only [Except.error.injEq] at h
        exact h.symm
    · simp at h
  · simp at h

theorem freezeEntity_ok_id (e : Entity) (p : Entity × Bool)
    (h : freezeEntity e = .ok p) : p.1.id = e.id := by
  unfold freezeEntity at h
  split at h
  · split at h
    · split at h
      · simp only [Except.ok.injEq] at h
        rw [← h]
      · exact absurd h (by simp)
    · simp only [Except.ok.injEq] at h
      rw [← h]
  · simp only [Except.ok.injEq] at h
    rw [← h]

/-- Claim C7 counterexample: an entity chunk containing an id-less entity
of a non-matching struct-type makes the entity pass abort with a panic
(the `unwrap` in `soa.add_entity(...)` at line 101), rather than passing
the entity through. -/
theorem idlessEntityCounterexample :
    entityPass [(0, [⟨none, "Entity_Brick", false⟩])]
      = ⟨[], 0, [Event.decodeEntityChunk 0],
          some (RunErr.panic "unwrap on None (entity id)")⟩ := rfl

/-- Claim C7 (amended): processing an entity chunk that contains an entity
whose numeric identifier is absent always aborts the run with a panic; the
id-less entity is never passed through into the rewritten chunk. -/
theorem idlessEntityPanics (es : List Entity) (e : Entity)
    (he : e ∈ es) (hid : e.id = none) :
    ∃ msg, freezeEntities es = .error (RunErr.panic msg) := by
  induction es with
  | nil => cases he
  | cons a rest ih =>
    unfold freezeEntities
    cases hfe : freezeEntity a with
    | error err =>
      exact ⟨_, by rw [freezeEntity_error a err hfe]⟩
    | ok p =>
      obtain ⟨e1, ch⟩ := p
      rcases List.mem_cons.mp he with rfl | hmem
      · have hpid : e1.id = none := by
          have h2 := freezeEntity_ok_id e (e1, ch) hfe
          simpa [hid] using h2
        exact ⟨"unwrap on None (entity id)", by simp [hpid]⟩
      · cases hpi : e1.id with
        | none => exact ⟨"unwrap on None (entity id)", by simp [hpi]⟩
        | some j =>
          obtain ⟨msg, hmsg⟩ := ih hmem
          exact ⟨msg, by simp [hpi, hmsg]⟩

def exIdless : Entity := ⟨none, "Entity_Couch", false⟩

theorem idlessEntityPanicsWitness :
    exIdless.id = none
    ∧ ∃ msg, freezeEntities [exIdless] = .error (RunErr.panic msg) :=
  ⟨rfl, idlessEntityPanics [exIdless] exIdless (List.mem_singleton.mpr rfl) rfl⟩

/-! ### Destination path derivation (claim C8) -/

/-- Claim C8 counterexample: for a source file named `World.dat` the
program derives `World.optimized.brdb` — the source's final extension is
replaced by `brdb`, not preserved as the spec's insertion rule
(`World.optimized.dat`) would demand. -/
theorem dstPathCounterexample :
    (dstPath ⟨["saves"], "World.dat"⟩).fileName = "World.optimized.brdb"
    ∧ specDstFileName "World.dat" = "World.optimized.dat"
    ∧ (dstPath ⟨["saves"], "World.dat"⟩).fileName ≠ specDstFileName "World.dat" := by
  exact ⟨rfl, rfl, by decide⟩

/-- Claim C8 (amended): the destination path stays in the source's
directory and its file name is the source's file stem with
`.optimized.brdb` appended; only when the source's final extension is
already `brdb` does this coincide with inserting an `.optimized` qualifier
before the (preserved) final extension. -/
theorem dstPathAmended (dir : List String) (name : String)
    (hext : extension name = some "brdb") :
    (dstPath ⟨dir, name⟩).dir = dir
    ∧ (dstPath ⟨dir, name⟩).fileName = fileStem name ++ ".optimized.brdb"
    ∧ (dstPath ⟨dir, name⟩).fileName = specDstFileName name := by
  refine ⟨rfl, rfl, ?_⟩
  unfold specDstFileName
  rw [hext]
  show fileStem name ++ ".optimized.brdb"
    = fileStem name ++ ".optimized." ++ "brdb"
  rw [String.append_assoc]
  rw [show ".optimized." ++ "brdb" = ".optimized.brdb" from rfl]

theorem dstPathAmendedWitness :
    extension "MyWorld.brdb" = some "brdb"
    ∧ (dstPath ⟨["saves"], "MyWorld.brdb"⟩).dir = ["saves"]
    ∧ (dstPath ⟨["saves"], "MyWorld.brdb"⟩).fileName
      = specDstFileName "MyWorld.brdb" :=
  ⟨rfl, (dstPathAmended ["saves"] "MyWorld.brdb" rfl).1,
    (dstPathAmended ["saves"] "MyWorld.brdb" rfl).2.2⟩

/-! ### Grid id collection (claim C3) -/

def wDupGrid : World :=
  ⟨[(0, [⟨some 5, "Entity_DynamicBrickGrid", false⟩,
      ⟨some 5, "Entity_DynamicBrickGrid", false⟩])],
    [(5, [⟨"Z", 1, some []⟩])], false⟩

/-- Claim C3 counterexample: two marker entities carrying the same
dynamic-grid id 5 produce `grid_ids = [1, 5, 5]` — duplicates are not
ignored and grid 5's chunk index is scanned twice during the run. -/
theorem gridIdsCounterexample :
    gridIds wDupGrid = [1, 5, 5]
    ∧ ¬ (gridIds wDupGrid).Nodup
    ∧ (run wDupGrid).2.count (Event.decodeComponentChunk 5 "Z") = 2 :=
  ⟨rfl, by decide, by decide⟩

theorem chunkMarkerIds_count (es : List Entity) (i : ℤ) :
    (chunkMarkerIds es).count i
      = es.countP
          (fun e => e.structType = "Entity_DynamicBrickGrid" && e.id = some i) := by
  induction es with
  | nil => rfl
  | cons e rest ih =>
    unfold chunkMarkerIds at ih ⊢
    by_cases hm : e.structType = "Entity_DynamicBrickGrid"
    · cases hi : e.id with
      | none => simp [List.filterMap_cons, hm, hi, List.countP_cons, ih]
      | some j =>
        by_cases hj : j = i
        · subst hj
          simp [List.filterMap_cons, hm, hi, List.countP_cons, List.count_cons, ih]
        · simp [List.filterMap_cons, hm, hi, List.countP_cons, List.count_cons,
            ih, hj, Ne.symm hj]
    · simp [List.filterMap_cons, hm, List.countP_cons, ih]

/-- Claim C3 (amended): the grid-id collection is a plain list seeded with
`[1]`, extended in first-seen order with one occurrence per marker entity
that carries an id — duplicate identifiers (and a marker carrying id 1)
are retained, not ignored, so a duplicated id is processed once per
occurrence. -/
theorem gridIdsCount (w : World) (i : ℤ) :
    (gridIds w).count i
      = (if i = 1 then 1 else 0)
        + (w.entityChunks.flatMap Prod.snd).countP
            (fun e => e.structType = "Entity_DynamicBrickGrid" && e.id = some i) := by
  unfold gridIds
  rw [List.count_cons]
  have hflat : ∀ L : List (ℤ × List Entity),
      ((L.flatMap fun p => chunkMarkerIds p.2).count i)
        = (L.flatMap Prod.snd).countP
            (fun e => e.structType = "Entity_DynamicBrickGrid" && e.id = some i) := by
    intro L
    induction L with
    | nil => rfl
    | cons p rest ih =>
      simp [List.flatMap_cons, List.count_append, List.countP_append, ih,
        chunkMarkerIds_count]
  rw [hflat]
  rcases eq_or_ne i 1 with h1 | h1
  · subst h1
    simp [Nat.add_comm]
  · simp [h1, Ne.symm h1]

/-! ### The weight counter double-count (claim C9) -/

def exWeight : BrdbComponent :=
  ⟨"BrickComponentData_WeightBrick",
    [("MassSize", BVal.strukt [("X", BVal.i32 0), ("Y", BVal.i32 0),
      ("Z", BVal.i32 0)]),
      ("Mass", BVal.f32 1)]⟩

def exWeightOut : BrdbComponent :=
  ⟨"BrickComponentData_WeightBrick",
    [("MassSize", BVal.strukt [("X", BVal.i32 0), ("Y", BVal.i32 0),
      ("Z", BVal.i32 0)]),
      ("Mass", BVal.f32 0)]⟩

/-- Claim C9 failing input: a single WeightBrick on grid 1 whose `Mass` is
positive.  Its mutation changes state once, the chunk counter counts it
once, but `num_components_modified` is incremented twice (line 226 and
line 288 of main.rs), so the overall counter reports 2 for 1 changed
component. -/
theorem weightBrickDoubleCount :
    classifyComponent 1 exWeight = .ok (exWeightOut, true, 2)
    ∧ processComponentList 1 [exWeight] = .ok ([exWeightOut], 1, 2) :=
  ⟨rfl, rfl⟩

/-! ### Scan-layer definitions -/

/-- Events emitted by the component scan. -/
def isScanEvent : Event → Bool
  | .decodeComponentChunk _ _ => true
  | .corruptChunk _ _ => true
  | _ => false

/-- Events that touch the destination file. -/
def isFileEvent : Event → Bool
  | .removeDst => true
  | .writeDst => true
  | _ => false

/-- Whether the rule actually changed this component (its `modified` flag). -/
def componentChangedB (g : ℤ) (c : BrdbComponent) : Bool :=
  match classifyComponent g c with
  | .ok (_, m, _) => m
  | .error _ => false

/-- The `num_chunk_modified` a chunk contributes when scanned. -/
def chunkModCount (g : ℤ) (ch : BrickChunk) : ℕ :=
  if ch.numComponents = 0 then 0
  else
    match ch.decoded with
    | none => 0
    | some comps =>
      match processComponentList g comps with
      | .error _ => 0
      | .ok (_, n, _) => n

/-- The `chunk_files` entry a chunk contributes, if any. -/
def chunkEntry (g : ℤ) (ch : BrickChunk) :
    Option (String × List BrdbComponent) :=
  if ch.numComponents = 0 then none
  else
    match ch.decoded with
    | none => none
    | some comps =>
      match processComponentList g comps with
      | .error _ => none
      | .ok (cs, n, _) =>
        if 0 < n then some (ch.coord ++ ".mps", cs) else none

/-- Whether at least one of the chunk's components is changed by a rule. -/
def chunkHasChange (g : ℤ) (ch : BrickChunk) : Bool :=
  (ch.numComponents != 0) &&
    match ch.decoded with
    | none => false
    | some comps => comps.any (componentChangedB g)

/-- Every (grid, chunk) pair the component scan is supposed to decode. -/
def scanPairs (w : World) : List (ℤ × String) :=
  (gridIds w).flatMap fun g =>
    ((w.brickIndex g).filter fun ch => ch.numComponents != 0).map
      fun ch => (g, ch.coord)

/-- The scan visited every chunk it was supposed to decode. -/
def scanComplete (w : World) (tr : List Event) : Prop :=
  ∀ p ∈ scanPairs w, Event.decodeComponentChunk p.1 p.2 ∈ tr

/-- The events of a trace that come after the destination write. -/
def postCommit (tr : List Event) : List Event :=
  (tr.dropWhile fun ev => ev != Event.writeDst).drop 1

/-! ### Lemmas about the per-chunk component loop -/

theorem processComponentList_ok_modCount (g : ℤ) :
    ∀ (comps cs : List BrdbComponent) (n d : ℕ),
      processComponentList g comps = .ok (cs, n, d) →
      (0 < n ↔ comps.any (componentChangedB g) = true) := by
  intro comps
  induction comps with
  | nil =>
    intro cs n d h
    simp only [processComponentList, Except.ok.injEq, Prod.mk.injEq] at h
    obtain ⟨-, h2, -⟩ := h
    simp [← h2]
  | cons c rest ih =>
    intro cs n d h
    unfold processComponentList at h
    cases hc : classifyComponent g c with
    | error e => rw [hc] at h; exact absurd h (by simp)
    | ok trip =>
      obtain ⟨c2, m, dd⟩ := trip
      rw [hc] at h
      cases hr : processComponentList g rest with
      | error e => rw [hr] at h; exact absurd h (by simp)
      | ok res2 =>
        obtain ⟨cs2, n2, d2⟩ := res2
        rw [hr] at h
        simp only [Except.ok.injEq, Prod.mk.injEq] at h
        obtain ⟨-, hn, -⟩ := h
        subst hn
        have hch : componentChangedB g c = m := by
          unfold componentChangedB
          rw [hc]
        cases m with
        | true => simp [hch]
        | false => simpa [hch] using ih cs2 n2 d2 hr

/-! ### Lemmas about one grid's chunk loop -/

theorem pgc_trace (g : ℤ) (chs : List BrickChunk) :
    ∀ st : GridAcc,
      ∃ ex, (processGridChunks g chs st).1.trace = st.trace ++ ex
        ∧ ∀ ev ∈ ex, isScanEvent ev = true := by
  induction chs with
  | nil => intro st; exact ⟨[], by simp [processGridChunks], by simp⟩
  | cons ch rest ih =>
    intro st
    unfold processGridChunks
    by_cases h0 : ch.numComponents = 0
    · simp only [if_pos h0]
      exact ih st
    · simp only [if_neg h0]
      cases hd : ch.decoded with
      | none =>
        dsimp only
        obtain ⟨ex, hex, hall⟩ := ih ⟨true, st.numComp, st.gridMod, st.files,
          st.trace ++ [Event.decodeComponentChunk g ch.coord,
            Event.corruptChunk g ch.coord]⟩
        refine ⟨[Event.decodeComponentChunk g ch.coord,
          Event.corruptChunk g ch.coord] ++ ex, ?_, ?_⟩
        · rw [hex]
          simp
        · intro ev hev
          rcases List.mem_append.mp hev with h | h
          · rcases List.mem_cons.mp h with rfl | h2
            · rfl
            · rcases List.mem_singleton.mp h2 with rfl
              rfl
          · exact hall ev h
      | some comps =>
        dsimp only
        cases hp : processComponentList g comps with
        | error e =>
          dsimp only
          refine ⟨[Event.decodeComponentChunk g ch.coord], rfl, ?_⟩
          intro ev hev
          rcases List.mem_singleton.mp hev with rfl
          rfl
        | ok res =>
          obtain ⟨cs, nChunk, delta⟩ := res
          dsimp only
          obtain ⟨ex, hex, hall⟩ := ih ⟨st.corrupted, st.numComp + delta,
            st.gridMod + nChunk,
            st.files ++ if 0 < nChunk then [(ch.coord ++ ".mps", cs)] else [],
            st.trace ++ [Event.decodeComponentChunk g ch.coord]⟩
          refine ⟨[Event.decodeComponentChunk g ch.coord] ++ ex, ?_, ?_⟩
          · rw [hex]
            simp
          · intro ev hev
            rcases List.mem_append.mp hev with h | h
            · rcases List.mem_singleton.mp h with rfl
              rfl
            · exact hall ev h

theorem pgc_corrupted_mono (g : ℤ) (chs : List BrickChunk) :
    ∀ st : GridAcc, st.corrupted = true →
      (processGridChunks g chs st).1.corrupted = true := by
  induction chs with
  | nil => intro st h; simpa [processGridChunks] using h
  | cons ch rest ih =>
    intro st h
    unfold processGridChunks
    by_cases h0 : ch.numComponents = 0
    · simp only [if_pos h0]
      exact ih st h
    · simp only [if_neg h0]
      cases hd : ch.decoded with
      | none =>
        dsimp only
        exact ih _ rfl
      | some comps =>
        dsimp only
        cases hp : processComponentList g comps with
        | error e => exact h
        | ok res =>
          obtain ⟨cs, nChunk, delta⟩ := res
          dsimp only
          exact ih _ h

theorem pgc_corrupt_inv (g : ℤ) (chs : List BrickChunk) :
    ∀ st : GridAcc,
      (∀ g0 c0, Event.corruptChunk g0 c0 ∈ st.trace → st.corrupted = true) →
      ∀ g0 c0,
        Event.corruptChunk g0 c0 ∈ (processGridChunks g chs st).1.trace →
        (processGridChunks g chs st).1.corrupted = true := by
  induction chs with
  | nil =>
    intro st hinv g0 c0 hmem
    simp only [processGridChunks] at hmem ⊢
    exact hinv g0 c0 hmem
  | cons ch rest ih =>
    intro st hinv g0 c0
    unfold processGridChunks
    by_cases h0 : ch.numComponents = 0
    · simp only [if_pos h0]
      exact ih st hinv g0 c0
    · simp only [if_neg h0]
      cases hd : ch.decoded with
      | none =>
        dsimp only
        intro hmem
        exact pgc_corrupted_mono g rest _ rfl
      | some comps =>
        dsimp only
        cases hp : processComponentList g comps with
        | error e =>
          dsimp only
          intro hmem
          rcases List.mem_append.mp hmem with h | h
          · exact hinv g0 c0 h
          · have h2 := List.mem_singleton.mp h
            exact absurd h2 (by simp)
        | ok res =>
          obtain ⟨cs, nChunk, delta⟩ := res
          dsimp only
          refine ih _ ?_ g0 c0
          intro g1 c1 hmem
          rcases List.mem_append.mp hmem with h | h
          · exact hinv g1 c1 h
          · have h2 := List.mem_singleton.mp h
            exact absurd h2 (by simp)

theorem pgc_decode_mem (g : ℤ) (chs : List BrickChunk) :
    ∀ st : GridAcc, (processGridChunks g chs st).2 = none →
      ∀ ch ∈ chs, ¬ ch.numComponents = 0 →
        Event.decodeComponentChunk g ch.coord
          ∈ (processGridChunks g chs st).1.trace := by
  induction chs with
  | nil => intro st hok ch hmem; cases hmem
  | cons ch0 rest ih =>
    intro st hok ch hmem hnz
    unfold processGridChunks at hok ⊢
    by_cases h0 : ch0.numComponents = 0
    · simp only [if_pos h0] at hok ⊢
      rcases List.mem_cons.mp hmem with rfl | h2
      · exact absurd h0 hnz
      · exact ih st hok ch h2 hnz
    · simp only [if_neg h0] at hok ⊢
      cases hd : ch0.decoded with
      | none =>
        rw [hd] at hok
        dsimp only at hok ⊢
        rcases List.mem_cons.mp hmem with rfl | h2
        · obtain ⟨ex, hex, -⟩ := pgc_trace g rest ⟨true, st.numComp,
            st.gridMod, st.files,
            st.trace ++ [Event.decodeComponentChunk g ch.coord,
              Event.corruptChunk g ch.coord]⟩
          rw [hex]
          dsimp only
          refine List.mem_append.mpr (Or.inl ?_)
          exact List.mem_append.mpr (Or.inr (by simp))
        · exact ih _ hok ch h2 hnz
      | some comps =>
        rw [hd] at hok
        dsimp only at hok ⊢
        cases hp : processComponentList g comps with
        | error e =>
          rw [hp] at hok
          dsimp only at hok
          exact absurd hok (by simp)
        | ok res =>
          obtain ⟨cs, nChunk, delta⟩ := res
          rw [hp] at hok
          dsimp only at hok ⊢
          rcases List.mem_cons.mp hmem with rfl | h2
          · obtain ⟨ex, hex, -⟩ := pgc_trace g rest ⟨st.corrupted,
              st.numComp + delta, st.gridMod + nChunk,
              st.files ++ if 0 < nChunk then [(ch.coord ++ ".mps", cs)] else [],
              st.trace ++ [Event.decodeComponentChunk g ch.coord]⟩
            rw [hex]
            dsimp only
            refine List.mem_append.mpr (Or.inl ?_)
            exact List.mem_append.mpr (Or.inr (by simp))
          · exact ih _ hok ch h2 hnz

theorem pgc_ok_of_mem (g : ℤ) (chs : List BrickChunk) :
    ∀ st : GridAcc, (processGridChunks g chs st).2 = none →
      ∀ ch ∈ chs, ¬ ch.numComponents = 0 →
        ∀ comps, ch.decoded = some comps →
          ∃ r, processComponentList g comps = .ok r := by
  induction chs with
  | nil => intro st hok ch hmem; cases hmem
  | cons ch0 rest ih =>
    intro st hok ch hmem hnz comps hdec
    unfold processGridChunks at hok
    by_cases h0 : ch0.numComponents = 0
    · simp only [if_pos h0] at hok
      rcases List.mem_cons.mp hmem with rfl | h2
      · exact absurd h0 hnz
      · exact ih st hok ch h2 hnz comps hdec
    · simp only [if_neg h0] at hok
      cases hd : ch0.decoded with
      | none =>
        rw [hd] at hok
        dsimp only at hok
        rcases List.mem_cons.mp hmem with rfl | h2
        · rw [hd] at hdec
          exact absurd hdec (by simp)
        · exact ih _ hok ch h2 hnz comps hdec
      | some comps0 =>
        rw [hd] at hok
        dsimp only at hok
        cases hp : processComponentList g comps0 with
        | error e =>
          rw [hp] at hok
          dsimp only at hok
          exact absurd hok (by simp)
        | ok res =>
          obtain ⟨cs, nChunk, delta⟩ := res
          rw [hp] at hok
          dsimp only at hok
          rcases List.mem_cons.mp hmem with rfl | h2
          · rw [hd] at hdec
            injection hdec with hdec
            subst hdec
            exact ⟨_, hp⟩
          · exact ih _ hok ch h2 hnz comps hdec

theorem pgc_files (g : ℤ) (chs : List BrickChunk) :
    ∀ st : GridAcc, (processGridChunks g chs st).2 = none →
      (processGridChunks g chs st).1.files
        = st.files ++ chs.filterMap (chunkEntry g) := by
  induction chs with
  | nil => intro st hok; simp [processGridChunks]
  | cons ch rest ih =>
    intro st hok
    unfold processGridChunks at hok ⊢
    by_cases h0 : ch.numComponents = 0
    · simp only [if_pos h0] at hok ⊢
      rw [ih st hok, List.filterMap_cons]
      simp [chunkEntry, h0]
    · simp only [if_neg h0] at hok ⊢
      cases hd : ch.decoded with
      | none =>
        rw [hd] at hok
        dsimp only at hok ⊢
        rw [ih _ hok, List.filterMap_cons]
        simp [chunkEntry, h0, hd]
      | some comps =>
        rw [hd] at hok
        dsimp only at hok ⊢
        cases hp : processComponentList g comps with
        | error e =>
          rw [hp] at hok
          dsimp only at hok
          exact absurd hok (by simp)
        | ok res =>
          obtain ⟨cs, nChunk, delta⟩ := res
          rw [hp] at hok
          dsimp only at hok ⊢
          rw [ih _ hok, List.filterMap_cons]
          simp only [chunkEntry, if_neg h0, hd, hp]
          by_cases hn : 0 < nChunk
          · simp [hn]
          · simp [hn]

theorem pgc_gridMod (g : ℤ) (chs : List BrickChunk) :
    ∀ st : GridAcc, (processGridChunks g chs st).2 = none →
      (processGridChunks g chs st).1.gridMod
        = st.gridMod + (chs.map (chunkModCount g)).sum := by
  induction chs with
  | nil => intro st hok; simp [processGridChunks]
  | cons ch rest ih =>
    intro st hok
    unfold processGridChunks at hok ⊢
    by_cases h0 : ch.numComponents = 0
    · simp only [if_pos h0] at hok ⊢
      rw [ih st hok]
      simp [chunkModCount, h0]
    · simp only [if_neg h0] at hok ⊢
      cases hd : ch.decoded with
      | none =>
        rw [hd] at hok
        dsimp only at hok ⊢
        rw [ih _ hok]
        simp [chunkModCount, h0, hd]
      | some comps =>
        rw [hd] at hok
        dsimp only at hok ⊢
        cases hp : processComponentList g comps with
        | error e =>
          rw [hp] at hok
          dsimp only at hok
          exact absurd hok (by simp)
        | ok res =>
          obtain ⟨cs, nChunk, delta⟩ := res
          rw [hp] at hok
          dsimp only at hok ⊢
          rw [ih _ hok]
          simp only [chunkModCount, if_neg h0, hd, hp, List.map_cons,
            List.sum_cons]
          omega

theorem natSum_pos_iff (l : List ℕ) : 0 < l.sum ↔ ∃ x ∈ l, 0 < x := by
  induction l with
  | nil => simp
  | cons a rest ih =>
    rw [List.sum_cons]
    constructor
    · intro h
      by_cases ha : 0 < a
      · exact ⟨a, List.mem_cons_self a rest, ha⟩
      · have hs : 0 < rest.sum := by omega
        obtain ⟨x, hx, hpos⟩ := ih.mp hs
        exact ⟨x, List.mem_cons_of_mem a hx, hpos⟩
    · rintro ⟨x, hx, hpos⟩
      rcases List.mem_cons.mp hx with rfl | hx2
      · omega
      · have := ih.mpr ⟨x, hx2, hpos⟩
        omega

/-- The patch entry of a chunk has the chunk's own coordinate in its file
name. -/
theorem chunkEntry_coord (g : ℤ) (ch : BrickChunk)
    (x : String × List BrdbComponent) (h : chunkEntry g ch = some x) :
    x.1 = ch.coord ++ ".mps" := by
  unfold chunkEntry at h
  by_cases h0 : ch.numComponents = 0
  · rw [if_pos h0] at h
    exact absurd h (by simp)
  · rw [if_neg h0] at h
    cases hd : ch.decoded with
    | none =>
      rw [hd] at h
      exact absurd h (by simp)
    | some comps =>
      rw [hd] at h
      dsimp only at h
      cases hp : processComponentList g comps with
      | error e =>
        rw [hp] at h
        exact absurd h (by simp)
      | ok res =>
        obtain ⟨cs, n, d⟩ := res
        rw [hp] at h
        dsimp only at h
        by_cases hn : 0 < n
        · rw [if_pos hn] at h
          injection h with h
          rw [← h]
        · rw [if_neg hn] at h
          exact absurd h (by simp)

theorem chunkModCount_pos_iff_hasChange (g : ℤ) (ch : BrickChunk)
    (hsc : ∀ comps, ch.decoded = some comps → ¬ ch.numComponents = 0 →
      ∃ r, processComponentList g comps = .ok r) :
    0 < chunkModCount g ch ↔ chunkHasChange g ch = true := by
  unfold chunkModCount chunkHasChange
  by_cases h0 : ch.numComponents = 0
  · simp [h0]
  · rw [if_neg h0]
    cases hd : ch.decoded with
    | none => simp
    | some comps =>
      dsimp only
      obtain ⟨⟨cs, n, d⟩, hr⟩ := hsc comps hd h0
      rw [hr]
      dsimp only
      rw [processComponentList_ok_modCount g comps cs n d hr]
      simp [h0]

theorem chunkEntry_isSome_iff_hasChange (g : ℤ) (ch : BrickChunk)
    (hsc : ∀ comps, ch.decoded = some comps → ¬ ch.numComponents = 0 →
      ∃ r, processComponentList g comps = .ok r) :
    (∃ x, chunkEntry g ch = some x) ↔ chunkHasChange g ch = true := by
  unfold chunkEntry chunkHasChange
  by_cases h0 : ch.numComponents = 0
  · simp [h0]
  · rw [if_neg h0]
    cases hd : ch.decoded with
    | none => simp
    | some comps =>
      dsimp only
      obtain ⟨⟨cs, n, d⟩, hr⟩ := hsc comps hd h0
      rw [hr]
      dsimp only
      have hiff := processComponentList_ok_modCount g comps cs n d hr
      by_cases hn : 0 < n
      · simp [hn, h0, hiff.mp hn]
      · have hna : ¬ comps.any (componentChangedB g) = true :=
          fun hany => hn (hiff.mpr hany)
        simp [hn, h0, hna]

/-! ### Lemmas about the grid loop -/

theorem pg_trace (w : World) (gids : List ℤ) :
    ∀ st : ScanAcc,
      ∃ ex, (processGrids w gids st).1.trace = st.trace ++ ex
        ∧ ∀ ev ∈ ex, isScanEvent ev = true := by
  induction gids with
  | nil => intro st; exact ⟨[], by simp [processGrids], by simp⟩
  | cons g rest ih =>
    intro st
    unfold processGrids
    obtain ⟨ex1, hex1, hall1⟩ := pgc_trace g (w.brickIndex g)
      ⟨st.corrupted, st.numComp, 0, [], st.trace⟩
    cases hc : processGridChunks g (w.brickIndex g)
        ⟨st.corrupted, st.numComp, 0, [], st.trace⟩ with
    | mk acc errOpt =>
      rw [hc] at hex1
      cases errOpt with
      | some e =>
        dsimp only
        exact ⟨ex1, hex1, hall1⟩
      | none =>
        dsimp only
        obtain ⟨ex2, hex2, hall2⟩ := ih
          ⟨acc.corrupted, acc.numComp, st.folder ++ gridEntry g acc, acc.trace⟩
        refine ⟨ex1 ++ ex2, ?_, ?_⟩
        · rw [hex2]
          dsimp only
          rw [hex1]
          simp
        · intro ev hev
          rcases List.mem_append.mp hev with h | h
          · exact hall1 ev h
          · exact hall2 ev h

theorem pg_corrupt_inv (w : World) (gids : List ℤ) :
    ∀ st : ScanAcc,
      (∀ g0 c0, Event.corruptChunk g0 c0 ∈ st.trace → st.corrupted = true) →
      ∀ g0 c0,
        Event.corruptChunk g0 c0 ∈ (processGrids w gids st).1.trace →
        (processGrids w gids st).1.corrupted = true := by
  induction gids with
  | nil =>
    intro st hinv g0 c0 hmem
    simp only [processGrids] at hmem ⊢
    exact hinv g0 c0 hmem
  | cons g rest ih =>
    intro st hinv g0 c0
    unfold processGrids
    have hin := pgc_corrupt_inv g (w.brickIndex g)
      ⟨st.corrupted, st.numComp, 0, [], st.trace⟩ hinv
    cases hc : processGridChunks g (w.brickIndex g)
        ⟨st.corrupted, st.numComp, 0, [], st.trace⟩ with
    | mk acc errOpt =>
      rw [hc] at hin
      cases errOpt with
      | some e =>
        dsimp only
        exact hin g0 c0
      | none =>
        dsimp only
        exact ih ⟨acc.corrupted, acc.numComp,
          st.folder ++ gridEntry g acc, acc.trace⟩ hin g0 c0

theorem pg_scanMem (w : World) (gids : List ℤ) :
    ∀ st : ScanAcc, (processGrids w gids st).2 = none →
      ∀ g ∈ gids, ∀ ch ∈ w.brickIndex g, ¬ ch.numComponents = 0 →
        Event.decodeComponentChunk g ch.coord
          ∈ (processGrids w gids st).1.trace := by
  induction gids with
  | nil => intro st hok g hmem; cases hmem
  | cons g0 rest ih =>
    intro st hok g hmem ch hch hnz
    unfold processGrids at hok ⊢
    cases hc : processGridChunks g0 (w.brickIndex g0)
        ⟨st.corrupted, st.numComp, 0, [], st.trace⟩ with
    | mk acc errOpt =>
      rw [hc] at hok
      cases errOpt with
      | some e =>
        dsimp only at hok
        exact absurd hok (by simp)
      | none =>
        dsimp only at hok ⊢
        rcases List.mem_cons.mp hmem with rfl | h2
        · have hdm := pgc_decode_mem g (w.brickIndex g)
            ⟨st.corrupted, st.numComp, 0, [], st.trace⟩ (by rw [hc])
            ch hch hnz
          rw [hc] at hdm
          obtain ⟨ex, hex, -⟩ := pg_trace w rest
            ⟨acc.corrupted, acc.numComp, st.folder ++ gridEntry g acc, acc.trace⟩
          rw [hex]
          exact List.mem_append.mpr (Or.inl hdm)
        · exact ih _ hok g h2 ch hch hnz

theorem pg_ok_of_mem (w : World) (gids : List ℤ) :
    ∀ st : ScanAcc, (processGrids w gids st).2 = none →
      ∀ g ∈ gids, ∀ ch ∈ w.brickIndex g, ¬ ch.numComponents = 0 →
        ∀ comps, ch.decoded = some comps →
          ∃ r, processComponentList g comps = .ok r := by
  induction gids with
  | nil => intro st hok g hmem; cases hmem
  | cons g0 rest ih =>
    intro st hok g hmem ch hch hnz comps hdec
    unfold processGrids at hok
    cases hc : processGridChunks g0 (w.brickIndex g0)
        ⟨st.corrupted, st.numComp, 0, [], st.trace⟩ with
    | mk acc errOpt =>
      rw [hc] at hok
      cases errOpt with
      | some e =>
        dsimp only at hok
        exact absurd hok (by simp)
      | none =>
        dsimp only at hok
        rcases List.mem_cons.mp hmem with rfl | h2
        · exact pgc_ok_of_mem g (w.brickIndex g)
            ⟨st.corrupted, st.numComp, 0, [], st.trace⟩ (by rw [hc])
            ch hch hnz comps hdec
        · exact ih _ hok g h2 ch hch hnz comps hdec

/-- Claim C6: for every grid, a component chunk appears in the output
patch (the grid's `chunk_files`) iff at least one of its components was
actually changed by a rule, and the grid-id folder entry is emitted iff
the grid produced at least one rewritten chunk — no empty grid folders. -/
theorem chunkPatchMinimality (g : ℤ) (chs : List BrickChunk) (corr : Bool)
    (n0 : ℕ) (tr : List Event)
    (hnd : (chs.map BrickChunk.coord).Nodup)
    (hok : (processGridChunks g chs ⟨corr, n0, 0, [], tr⟩).2 = none) :
    (∀ ch ∈ chs,
        (∃ cs, (ch.coord ++ ".mps", cs)
            ∈ (processGridChunks g chs ⟨corr, n0, 0, [], tr⟩).1.files)
          ↔ chunkHasChange g ch = true)
    ∧ ((∃ fs, (toString g, fs)
          ∈ gridEntry g (processGridChunks g chs ⟨corr, n0, 0, [], tr⟩).1)
        ↔ ∃ ch ∈ chs, chunkHasChange g ch = true) := by
  have hfiles := pgc_files g chs ⟨corr, n0, 0, [], tr⟩ hok
  have hmod := pgc_gridMod g chs ⟨corr, n0, 0, [], tr⟩ hok
  dsimp only at hfiles hmod
  rw [List.nil_append] at hfiles
  rw [Nat.zero_add] at hmod
  have hsc : ∀ ch ∈ chs, ∀ comps, ch.decoded = some comps →
      ¬ ch.numComponents = 0 → ∃ r, processComponentList g comps = .ok r :=
    fun ch hch comps hd h0 =>
      pgc_ok_of_mem g chs ⟨corr, n0, 0, [], tr⟩ hok ch hch h0 comps hd
  constructor
  · intro ch hch
    have hiff := chunkEntry_isSome_iff_hasChange g ch
      (fun comps hd h0 => hsc ch hch comps hd h0)
    constructor
    · rintro ⟨cs, hmem⟩
      rw [hfiles] at hmem
      obtain ⟨ch2, hch2, hent2⟩ := List.mem_filterMap.mp hmem
      have hco := chunkEntry_coord g ch2 _ hent2
      have hcoord : ch2.coord = ch.coord := by
        have h3 := congrArg String.data hco
        rw [String.data_append, String.data_append] at h3
        exact (String.ext (List.append_cancel_right h3)).symm
      have hsame : ch2 = ch :=
        List.inj_on_of_nodup_map hnd hch2 hch (by rw [hcoord])
      rw [hsame] at hent2
      exact hiff.mp ⟨_, hent2⟩
    · intro hhc
      obtain ⟨x, hx⟩ := hiff.mpr hhc
      obtain ⟨a, b⟩ := x
      have hco := chunkEntry_coord g ch (a, b) hx
      dsimp only at hco
      subst hco
      refine ⟨b, ?_⟩
      rw [hfiles]
      exact List.mem_filterMap.mpr ⟨ch, hch, hx⟩
  · constructor
    · rintro ⟨fs, hmem⟩
      unfold gridEntry at hmem
      by_cases hgm : 0 < (processGridChunks g chs ⟨corr, n0, 0, [], tr⟩).1.gridMod
      · rw [hmod] at hgm
        obtain ⟨x, hx, hxpos⟩ := (natSum_pos_iff _).mp hgm
        obtain ⟨ch, hch,ered⟩ := List.mem_map.mp hx
        refine ⟨ch, hch, ?_⟩
        rw [← chunkModCount_pos_iff_hasChange g ch
          (fun comps hd h0 => hsc ch hch comps hd h0)]
        rw [ered]
        exact hxpos
      · rw [if_neg hgm] at hmem
        cases hmem
    · rintro ⟨ch, hch, hhc⟩
      have hpos : 0 < chunkModCount g ch :=
        (chunkModCount_pos_iff_hasChange g ch
          (fun comps hd h0 => hsc ch hch comps hd h0)).mpr hhc
      have hgm : 0 < (processGridChunks g chs ⟨corr, n0, 0, [], tr⟩).1.gridMod := by
        rw [hmod]
        exact (natSum_pos_iff _).mpr
          ⟨chunkModCount g ch, List.mem_map.mpr ⟨ch, hch, rfl⟩, hpos⟩
      refine ⟨(processGridChunks g chs ⟨corr, n0, 0, [], tr⟩).1.files, ?_⟩
      unfold gridEntry
      rw [if_pos hgm]
      exact List.mem_singleton.mpr rfl

def exLightTame : BrdbComponent :=
  ⟨"BrickComponentData_SpotLight",
    [("Radius", BVal.f32 100), ("Brightness", BVal.f32 50),
      ("bCastShadows", BVal.bool false)]⟩

def exChunkA : BrickChunk := ⟨"0_0_0", 1, some [exLight]⟩

def exChunkB : BrickChunk := ⟨"1_0_0", 1, some [exLightTame]⟩

theorem chunkPatchMinimalityWitness :
    (∃ cs, ("0_0_0.mps", cs)
        ∈ (processGridChunks 1 [exChunkA, exChunkB] ⟨false, 0, 0, [], []⟩).1.files)
    ∧ ¬ (∃ cs, ("1_0_0.mps", cs)
        ∈ (processGridChunks 1 [exChunkA, exChunkB] ⟨false, 0, 0, [], []⟩).1.files)
    ∧ (∃ fs, ("1", fs)
        ∈ gridEntry 1 (processGridChunks 1 [exChunkA, exChunkB]
            ⟨false, 0, 0, [], []⟩).1) := by
  obtain ⟨h1, h2⟩ := chunkPatchMinimality 1 [exChunkA, exChunkB] false 0 []
    (by decide) rfl
  refine ⟨?_, ?_, ?_⟩
  · exact (h1 exChunkA (List.mem_cons_self _ _)).mpr (by decide)
  · intro hcs
    have hB := (h1 exChunkB
      (List.mem_cons_of_mem _ (List.mem_cons_self _ _))).mp hcs
    exact absurd hB (by decide)
  · exact h2.mpr ⟨exChunkA, List.mem_cons_self _ _, by decide⟩

/-! ### Run-level trace lemmas -/

theorem entityPass_trace (chunks : List (ℤ × List Entity)) :
    ∀ ev ∈ (entityPass chunks).trace, ∃ i, ev = Event.decodeEntityChunk i := by
  induction chunks with
  | nil => intro ev hev; cases hev
  | cons p rest ih =>
    obtain ⟨idx, es⟩ := p
    intro ev hev
    unfold entityPass at hev
    cases hf : freezeEntities es with
    | error err =>
      rw [hf] at hev
      dsimp only at hev
      rcases List.mem_singleton.mp hev with rfl
      exact ⟨idx, rfl⟩
    | ok r =>
      obtain ⟨es1, n⟩ := r
      rw [hf] at hev
      dsimp only at hev
      rcases List.mem_cons.mp hev with rfl | h2
      · exact ⟨idx, rfl⟩
      · exact ih ev h2

theorem discoveryEvents_shape (w : World) :
    ∀ ev ∈ discoveryEvents w, ∃ i, ev = Event.decodeEntityChunk i := by
  intro ev hev
  obtain ⟨p, hp, hpe⟩ := List.mem_map.mp hev
  exact ⟨p.1, hpe.symm⟩

theorem initTrace_shape (w : World) :
    ∀ ev ∈ (entityPass w.entityChunks).trace ++ discoveryEvents w,
      ∃ i, ev = Event.decodeEntityChunk i := by
  intro ev hev
  rcases List.mem_append.mp hev with h | h
  · exact entityPass_trace _ ev h
  · exact discoveryEvents_shape w ev h

theorem scanTrace_noFile (w : World) (gids : List ℤ) (st0 : ScanAcc)
    (hsh : ∀ ev ∈ st0.trace, ∃ i, ev = Event.decodeEntityChunk i) :
    Event.writeDst ∉ (processGrids w gids st0).1.trace
    ∧ Event.removeDst ∉ (processGrids w gids st0).1.trace := by
  obtain ⟨ex, hex, hall⟩ := pg_trace w gids st0
  rw [hex]
  constructor
  · intro hmem
    rcases List.mem_append.mp hmem with h | h
    · obtain ⟨i, hi⟩ := hsh _ h
      exact Event.noConfusion hi
    · have h2 := hall _ h
      exact absurd h2 (by simp [isScanEvent])
  · intro hmem
    rcases List.mem_append.mp hmem with h | h
    · obtain ⟨i, hi⟩ := hsh _ h
      exact Event.noConfusion hi
    · have h2 := hall _ h
      exact absurd h2 (by simp [isScanEvent])

theorem postCommit_append_writeDst :
    ∀ l : List Event, Event.writeDst ∉ l →
      postCommit (l ++ [Event.writeDst]) = []
  | [], _ => rfl
  | a :: rest, h => by
    unfold postCommit
    rw [List.cons_append]
    have hne : a ≠ Event.writeDst :=
      fun hEq => h (hEq ▸ List.mem_cons_self a rest)
    have ha : (a != Event.writeDst) = true := by simp [hne]
    simp only [List.dropWhile_cons, ha, if_true]
    have h2 := postCommit_append_writeDst rest
      (fun hm => h (List.mem_cons_of_mem a hm))
    unfold postCommit at h2
    exact h2

/-! ### Corruption containment (claim C2) -/

def wC2 : World :=
  ⟨[], [(1, [⟨"A", 1, none⟩,
    ⟨"B", 1, some [⟨"BrickComponentData_PointLight", []⟩]⟩,
    ⟨"C", 1, some []⟩])], true⟩

/-- Claim C2 counterexample: a run whose grid 1 holds a corrupt chunk "A",
then a chunk "B" whose light component lacks `Radius`, then a healthy
chunk "C".  A component chunk decode failure is observed, yet the scan does
not complete: chunk "C" is never decoded, because the property lookup
failure in "B" aborts the run (`?` in `main`) before the scan finishes. -/
theorem corruptionContainmentCounterexample :
    (∃ g0 c0, Event.corruptChunk g0 c0 ∈ (run wC2).2)
    ∧ ¬ scanComplete wC2 (run wC2).2 := by
  constructor
  · exact ⟨1, "A", by decide⟩
  · intro h
    have hp := h (1, "C") (by decide)
    exact absurd hp (by decide)

/-- Claim C2 (amended): for every run in which at least one component chunk
fails to decode and which no other fatal error (property-lookup/encode
failure or panic) aborts, the scan of the remaining chunks completes, the
process exits with code 1, and the destination file is neither created nor
overwritten. -/
theorem corruptionContainment (w : World)
    (hcor : ∃ g0 c0, Event.corruptChunk g0 c0 ∈ (run w).2)
    (hnf : ∀ e, (run w).1 ≠ Outcome.fail e) :
    (run w).1 = Outcome.corrupt
    ∧ exitCode (run w).1 = 1
    ∧ scanComplete w (run w).2
    ∧ Event.writeDst ∉ (run w).2
    ∧ Event.removeDst ∉ (run w).2 := by
  cases hep : (entityPass w.entityChunks).err with
  | some e =>
    have hrun : run w = (Outcome.fail e, (entityPass w.entityChunks).trace) := by
      unfold run
      dsimp only
      rw [hep]
    exact absurd (by rw [hrun]) (hnf e)
  | none =>
    cases hpg : processGrids w (gridIds w)
        ⟨false, 0, [], (entityPass w.entityChunks).trace ++ discoveryEvents w⟩ with
    | mk st errOpt =>
      cases errOpt with
      | some e =>
        have hrun : run w = (Outcome.fail e, st.trace) := by
          unfold run
          dsimp only
          rw [hep]
          dsimp only
          rw [hpg]
        exact absurd (by rw [hrun]) (hnf e)
      | none =>
        cases hcb : st.corrupted with
        | false =>
          exfalso
          have hrun : run w = (Outcome.ok (entityPass w.entityChunks).files
              st.folder (entityPass w.entityChunks).numModified st.numComp,
              (st.trace ++ (if w.dstExists then [Event.removeDst] else []))
                ++ [Event.writeDst]) := by
            unfold run
            dsimp only
            rw [hep]
            dsimp only
            rw [hpg]
            dsimp only
            rw [hcb]
            simp
          rw [hrun] at hcor
          dsimp only at hcor
          obtain ⟨g0, c0, hmem⟩ := hcor
          have hinv : ∀ g1 c1, Event.corruptChunk g1 c1
              ∈ (entityPass w.entityChunks).trace ++ discoveryEvents w →
              False := by
            intro g1 c1 hmem1
            obtain ⟨i, hi⟩ := initTrace_shape w _ hmem1
            exact Event.noConfusion hi
          rcases List.mem_append.mp hmem with h | h
          · rcases List.mem_append.mp h with h2 | h2
            · have hcorr := pg_corrupt_inv w (gridIds w)
                ⟨false, 0, [], (entityPass w.entityChunks).trace
                  ++ discoveryEvents w⟩
                (fun g1 c1 hm1 => absurd hm1 (fun hx => hinv g1 c1 hx))
                g0 c0 (by rw [hpg]; exact h2)
              rw [hpg] at hcorr
              dsimp only at hcorr
              rw [hcb] at hcorr
              exact Bool.noConfusion hcorr
            · by_cases hde : w.dstExists
              · rw [if_pos hde] at h2
                have h3 := List.mem_singleton.mp h2
                exact Event.noConfusion h3
              · rw [if_neg hde] at h2
                cases h2
          · have h3 := List.mem_singleton.mp h
            exact Event.noConfusion h3
        | true =>
          have hrun : run w = (Outcome.corrupt, st.trace) := by
            unfold run
            dsimp only
            rw [hep]
            dsimp only
            rw [hpg]
            dsimp only
            rw [hcb]
            simp
          rw [hrun]
          dsimp only
          refine ⟨rfl, rfl, ?_, ?_, ?_⟩
          · intro p hp
            unfold scanPairs at hp
            obtain ⟨g, hg, hmm⟩ := List.mem_flatMap.mp hp
            obtain ⟨ch, hchf, hpe⟩ := List.mem_map.mp hmm
            obtain ⟨hchm, hchnz⟩ := List.mem_filter.mp hchf
            have hnz : ¬ ch.numComponents = 0 := by simpa using hchnz
            have hsm := pg_scanMem w (gridIds w)
              ⟨false, 0, [], (entityPass w.entityChunks).trace
                ++ discoveryEvents w⟩ (by rw [hpg]) g hg ch hchm hnz
            rw [hpg] at hsm
            rw [← hpe]
            exact hsm
          · have h2 := (scanTrace_noFile w (gridIds w)
              ⟨false, 0, [], (entityPass w.entityChunks).trace
                ++ discoveryEvents w⟩ (initTrace_shape w)).1
            rw [hpg] at h2
            exact h2
          · have h2 := (scanTrace_noFile w (gridIds w)
              ⟨false, 0, [], (entityPass w.entityChunks).trace
                ++ discoveryEvents w⟩ (initTrace_shape w)).2
            rw [hpg] at h2
            exact h2

def wCor : World := ⟨[], [(1, [⟨"A", 1, none⟩, ⟨"C", 1, some []⟩])], true⟩

theorem corruptionContainmentWitness :
    (∃ g0 c0, Event.corruptChunk g0 c0 ∈ (run wCor).2)
    ∧ (run wCor).1 = Outcome.corrupt
    ∧ exitCode (run wCor).1 = 1
    ∧ scanComplete wCor (run wCor).2
    ∧ Event.writeDst ∉ (run wCor).2
    ∧ Event.removeDst ∉ (run wCor).2 := by
  have hcor : ∃ g0 c0, Event.corruptChunk g0 c0 ∈ (run wCor).2 :=
    ⟨1, "A", by decide⟩
  have hnf : ∀ e, (run wCor).1 ≠ Outcome.fail e := by
    intro e h
    rw [show (run wCor).1 = Outcome.corrupt from rfl] at h
    exact Outcome.noConfusion h
  obtain ⟨h1, h2, h3, h4, h5⟩ := corruptionContainment wCor hcor hnf
  exact ⟨hcor, h1, h2, h3, h4, h5⟩

/-! ### Missing-property errors (claim C10) -/

theorem getField_lightStep1 (c : BrdbComponent) (r : ℚ) (k : String)
    (hk : "Radius" ≠ k) :
    getField (if 5000 < r then (c.setProp "Radius" (BVal.f32 5000), true)
      else (c, false)).1.fields k = getField c.fields k := by
  by_cases h : 5000 < r
  · rw [if_pos h]
    show getField (setField c.fields "Radius" (BVal.f32 5000)) k
      = getField c.fields k
    exact getField_setField_of_ne _ _ _ _ hk
  · rw [if_neg h]

theorem getField_lightStep2 (d : BrdbComponent × Bool) (b : ℚ) (k : String)
    (hk : "Brightness" ≠ k) :
    getField (if 400 < b then (d.1.setProp "Brightness" (BVal.f32 400), true)
      else d).1.fields k = getField d.1.fields k := by
  by_cases h : 400 < b
  · rw [if_pos h]
    show getField (setField d.1.fields "Brightness" (BVal.f32 400)) k
      = getField d.1.fields k
    exact getField_setField_of_ne _ _ _ _ hk
  · rw [if_neg h]

theorem applyLightRule_ok_props (c : BrdbComponent) (x : BrdbComponent × Bool)
    (h : applyLightRule c = .ok x) :
    (getField c.fields "Radius").isSome
    ∧ (getField c.fields "Brightness").isSome
    ∧ (getField c.fields "bCastShadows").isSome := by
  unfold applyLightRule at h
  cases hr : c.propF32 "Radius" with
  | error e =>
    rw [hr] at h
    exact absurd h (by simp)
  | ok r =>
    rw [hr] at h
    dsimp only at h
    set s1 := if 5000 < r then (c.setProp "Radius" (BVal.f32 5000), true)
      else (c, false) with hs1
    cases hb : s1.1.propF32 "Brightness" with
    | error e =>
      rw [hb] at h
      exact absurd h (by simp)
    | ok b =>
      rw [hb] at h
      dsimp only at h
      set s2 := if 400 < b then (s1.1.setProp "Brightness" (BVal.f32 400), true)
        else s1 with hs2
      cases hsh : s2.1.propBool "bCastShadows" with
      | error e =>
        rw [hsh] at h
        exact absurd h (by simp)
      | ok sh =>
        refine ⟨?_, ?_, ?_⟩
        · rw [propF32_eq_ok.mp hr]
          rfl
        · have h2 := propF32_eq_ok.mp hb
          rw [hs1, getField_lightStep1 c r "Brightness" (by decide)] at h2
          rw [h2]
          rfl
        · have h2 := propBool_eq_ok.mp hsh
          rw [hs2, getField_lightStep2 s1 b "bCastShadows" (by decide),
            hs1, getField_lightStep1 c r "bCastShadows" (by decide)] at h2
          rw [h2]
          rfl

theorem applyWeightBrickRule_ok_props (c : BrdbComponent)
    (x : BrdbComponent × Bool) (h : applyWeightBrickRule c = .ok x) :
    (getField c.fields "MassSize").isSome
    ∧ (getField c.fields "Mass").isSome := by
  unfold applyWeightBrickRule at h
  cases hms : c.prop "MassSize" with
  | error e =>
    rw [hms] at h
    exact absurd h (by simp)
  | ok ms0 =>
    rw [hms] at h
    dsimp only at h
    cases hx : ms0.propI32 "X" with
    | error e =>
      rw [hx] at h
      exact absurd h (by simp)
    | ok x1 =>
      rw [hx] at h
      dsimp only at h
      set t1 := if 0 < x1 then (ms0.setProp "X" (BVal.i32 0), true)
        else (ms0, false) with ht1
      cases hy : t1.1.propI32 "Y" with
      | error e =>
        rw [hy] at h
        exact absurd h (by simp)
      | ok y1 =>
        rw [hy] at h
        dsimp only at h
        set t2 := if 0 < y1 then (t1.1.setProp "Y" (BVal.i32 0), true)
          else t1 with ht2
        cases hz : t2.1.propI32 "Z" with
        | error e =>
          rw [hz] at h
          exact absurd h (by simp)
        | ok z1 =>
          rw [hz] at h
          dsimp only at h
          set t3 := if 0 < z1 then (t2.1.setProp "Z" (BVal.i32 0), true)
            else t2 with ht3
          cases hm : (BrdbComponent.mk c.name
              (setField c.fields "MassSize" t3.1)).propF32 "Mass" with
          | error e =>
            rw [hm] at h
            exact absurd h (by simp)
          | ok m =>
            refine ⟨?_, ?_⟩
            · rw [prop_eq_ok.mp hms]
              rfl
            · have h2 := propF32_eq_ok.mp hm
              dsimp only at h2
              rw [getField_setField_of_ne _ _ _ _ (by decide)] at h2
              rw [h2]
              rfl

theorem applyWheelEngineRule_ok_props (c : BrdbComponent)
    (x : BrdbComponent × Bool) (h : applyWheelEngineRule c = .ok x) :
    (getField c.fields "CustomMass").isSome := by
  unfold applyWheelEngineRule at h
  cases hm : c.propF32 "CustomMass" with
  | error e =>
    rw [hm] at h
    exact absurd h (by simp)
  | ok m =>
    rw [propF32_eq_ok.mp hm]
    rfl

theorem classify_ok_props (g : ℤ) (c : BrdbComponent)
    (x : BrdbComponent × Bool × ℕ) (h : classifyComponent g c = .ok x) :
    (isLightName c.name = true →
      (getField c.fields "Radius").isSome
      ∧ (getField c.fields "Brightness").isSome
      ∧ (getField c.fields "bCastShadows").isSome)
    ∧ (g = 1 → c.name = "BrickComponentData_WeightBrick" →
      (getField c.fields "MassSize").isSome
      ∧ (getField c.fields "Mass").isSome)
    ∧ (g = 1 → c.name = "BrickComponentData_WheelEngine" →
      (getField c.fields "CustomMass").isSome) := by
  unfold classifyComponent at h
  dsimp only at h
  refine ⟨?_, ?_, ?_⟩
  · intro hn
    have hname : c.name = "BrickComponentData_PointLight"
        ∨ c.name = "BrickComponentData_SpotLight" := by
      simpa [isLightName] using hn
    have hw : ¬ c.name = "BrickComponentData_WeightBrick" := by
      rcases hname with h1 | h1 <;> rw [h1] <;> decide
    have he : ¬ c.name = "BrickComponentData_WheelEngine" := by
      rcases hname with h1 | h1 <;> rw [h1] <;> decide
    have key : ∃ y, applyLightRule c = .ok y := by
      by_cases hg : g = 1
      · rw [if_pos hg, if_neg hw] at h
        dsimp only at h
        rw [if_neg he] at h
        dsimp only at h
        rw [if_pos hn] at h
        cases hal : applyLightRule c with
        | error e =>
          rw [hal] at h
          exact absurd h (by simp)
        | ok y => exact ⟨y, rfl⟩
      · rw [if_neg hg] at h
        dsimp only at h
        rw [if_pos hn] at h
        cases hal : applyLightRule c with
        | error e =>
          rw [hal] at h
          exact absurd h (by simp)
        | ok y => exact ⟨y, rfl⟩
    obtain ⟨y, hy⟩ := key
    exact applyLightRule_ok_props c y hy
  · intro hg hwname
    rw [if_pos hg, if_pos hwname] at h
    cases hwb : applyWeightBrickRule c with
    | error e =>
      rw [hwb] at h
      exact absurd h (by simp)
    | ok p => exact applyWeightBrickRule_ok_props c p hwb
  · intro hg hename
    have hwb' : ¬ c.name = "BrickComponentData_WeightBrick" := by
      rw [hename]
      decide
    rw [if_pos hg, if_neg hwb'] at h
    dsimp only at h
    rw [if_pos hename] at h
    cases hwe : applyWheelEngineRule c with
    | error e =>
      rw [hwe] at h
      exact absurd h (by simp)
    | ok p => exact applyWheelEngineRule_ok_props c p hwe

/-- The component is one of the recognized mutable struct-types for its
grid but lacks one of the properties its rule reads. -/
def recognizedMissingProp (g : ℤ) (c : BrdbComponent) : Bool :=
  (isLightName c.name &&
    ((getField c.fields "Radius").isNone
      || (getField c.fields "Brightness").isNone
      || (getField c.fields "bCastShadows").isNone))
  || ((g == 1) && (c.name == "BrickComponentData_WeightBrick")
      && ((getField c.fields "MassSize").isNone
        || (getField c.fields "Mass").isNone))
  || ((g == 1) && (c.name == "BrickComponentData_WheelEngine")
      && (getField c.fields "CustomMass").isNone)

theorem classify_error_of_missing (g : ℤ) (c : BrdbComponent)
    (hm : recognizedMissingProp g c = true) :
    ∃ e, classifyComponent g c = .error e := by
  cases hres : classifyComponent g c with
  | error e => exact ⟨e, rfl⟩
  | ok x =>
    exfalso
    obtain ⟨hL, hW, hE⟩ := classify_ok_props g c x hres
    unfold recognizedMissingProp at hm
    simp only [Bool.or_eq_true, Bool.and_eq_true, beq_iff_eq,
      Option.isNone_iff_eq_none] at hm
    rcases hm with ((⟨hn, hmiss⟩ | ⟨⟨hg, hname⟩, hmiss⟩) | ⟨⟨hg, hname⟩, hmiss⟩)
    · obtain ⟨h1, h2, h3⟩ := hL hn
      rcases hmiss with (hh | hh) | hh
      · rw [hh] at h1
        exact Bool.noConfusion h1
      · rw [hh] at h2
        exact Bool.noConfusion h2
      · rw [hh] at h3
        exact Bool.noConfusion h3
    · obtain ⟨h1, h2⟩ := hW hg hname
      rcases hmiss with hh | hh
      · rw [hh] at h1
        exact Bool.noConfusion h1
      · rw [hh] at h2
        exact Bool.noConfusion h2
    · have h1 := hE hg hname
      rw [hmiss] at h1
      exact Bool.noConfusion h1

theorem pcl_ok_all (g : ℤ) :
    ∀ (comps : List BrdbComponent) (r : List BrdbComponent × ℕ × ℕ),
      processComponentList g comps = .ok r →
      ∀ c ∈ comps, ∃ y, classifyComponent g c = .ok y := by
  intro comps
  induction comps with
  | nil => intro r h c hc; cases hc
  | cons c0 rest ih =>
    intro r h c hc
    unfold processComponentList at h
    cases hcl : classifyComponent g c0 with
    | error e =>
      rw [hcl] at h
      exact absurd h (by simp)
    | ok y0 =>
      obtain ⟨c2, m, d⟩ := y0
      rw [hcl] at h
      dsimp only at h
      rcases List.mem_cons.mp hc with rfl | h2
      · exact ⟨_, hcl⟩
      · cases hrest : processComponentList g rest with
        | error e =>
          rw [hrest] at h
          exact absurd h (by simp)
        | ok r2 => exact ih r2 hrest c h2

/-- Claim C10: a component of a recognized mutable struct-type
(PointLight/SpotLight anywhere, WeightBrick or WheelEngine on grid 1) that
lacks one of the properties its rule reads makes the whole run terminate
with an error before anything is written — it is not silently passed
through like an unrecognized type. -/
theorem missingPropFatal (w : World) (g : ℤ) (ch : BrickChunk)
    (comps : List BrdbComponent) (c : BrdbComponent)
    (hg : g ∈ gridIds w) (hch : ch ∈ w.brickIndex g)
    (hnz : ¬ ch.numComponents = 0) (hdec : ch.decoded = some comps)
    (hc : c ∈ comps) (hm : recognizedMissingProp g c = true) :
    (∃ e, (run w).1 = Outcome.fail e)
    ∧ Event.writeDst ∉ (run w).2
    ∧ Event.removeDst ∉ (run w).2 := by
  have hnotok : ∀ st : ScanAcc, ¬ (processGrids w (gridIds w) st).2 = none := by
    intro st hok2
    obtain ⟨r, hr⟩ := pg_ok_of_mem w (gridIds w) st hok2 g hg ch hch hnz
      comps hdec
    obtain ⟨y, hy⟩ := pcl_ok_all g comps r hr c hc
    obtain ⟨e, he⟩ := classify_error_of_missing g c hm
    rw [he] at hy
    exact Except.noConfusion hy
  cases hep : (entityPass w.entityChunks).err with
  | some e =>
    have hrun : run w = (Outcome.fail e, (entityPass w.entityChunks).trace) := by
      unfold run
      dsimp only
      rw [hep]
    rw [hrun]
    refine ⟨⟨e, rfl⟩, ?_, ?_⟩
    · intro hmem
      obtain ⟨i, hi⟩ := entityPass_trace w.entityChunks _ hmem
      exact Event.noConfusion hi
    · intro hmem
      obtain ⟨i, hi⟩ := entityPass_trace w.entityChunks _ hmem
      exact Event.noConfusion hi
  | none =>
    cases hpg : processGrids w (gridIds w)
        ⟨false, 0, [], (entityPass w.entityChunks).trace
          ++ discoveryEvents w⟩ with
    | mk st errOpt =>
      cases errOpt with
      | none => exact absurd (by rw [hpg]) (hnotok _)
      | some e =>
        have hrun : run w = (Outcome.fail e, st.trace) := by
          unfold run
          dsimp only
          rw [hep]
          dsimp only
          rw [hpg]
        rw [hrun]
        have hnof := scanTrace_noFile w (gridIds w)
          ⟨false, 0, [], (entityPass w.entityChunks).trace
            ++ discoveryEvents w⟩ (initTrace_shape w)
        rw [hpg] at hnof
        exact ⟨⟨e, rfl⟩, hnof.1, hnof.2⟩

def exBadLight : BrdbComponent := ⟨"BrickComponentData_PointLight", []⟩

def wMissing : World := ⟨[], [(1, [⟨"0", 1, some [exBadLight]⟩])], true⟩

theorem missingPropFatalWitness :
    recognizedMissingProp 1 exBadLight = true
    ∧ (∃ e, (run wMissing).1 = Outcome.fail e)
    ∧ Event.writeDst ∉ (run wMissing).2
    ∧ Event.removeDst ∉ (run wMissing).2 := by
  have h := missingPropFatal wMissing 1 ⟨"0", 1, some [exBadLight]⟩
    [exBadLight] exBadLight
    (List.mem_singleton.mpr rfl)
    (List.mem_singleton.mpr rfl)
    (by decide)
    rfl
    (List.mem_singleton.mpr rfl)
    (by decide)
  exact ⟨by decide, h.1, h.2.1, h.2.2⟩

/-! ### No verification after write (claim C1) -/

def w1 : World := ⟨[(0, [⟨some 7, "Entity_Wheel01", false⟩])], [], false⟩

/-- Claim C1 counterexample: a healthy run with one entity chunk commits
successfully, yet no event at all follows the destination write — in
particular the destination is never re-opened and no decode of the entity
chunk (nor of any (grid, chunk) pair) is attempted after the commit. -/
theorem noVerificationCounterexample :
    (run w1).1 = Outcome.ok [("0.mps", [⟨some 7, "Entity_Wheel01", true⟩])] [] 1 0
    ∧ w1.entityChunks.length = 1
    ∧ Event.writeDst ∈ (run w1).2
    ∧ postCommit (run w1).2 = [] := by
  refine ⟨rfl, rfl, ?_, rfl⟩
  decide

/-- Claim C1 (amended): after the combined patch is successfully committed
to the destination, the program performs no verification: the write is the
final observable event of the run and nothing — no re-open, no decode — is
attempted after it. -/
theorem noPostCommitVerification (w : World)
    (hok : ∃ ef fo n1 n2, (run w).1 = Outcome.ok ef fo n1 n2) :
    Event.writeDst ∈ (run w).2 ∧ postCommit (run w).2 = [] := by
  cases hep : (entityPass w.entityChunks).err with
  | some e =>
    have hrun : run w = (Outcome.fail e, (entityPass w.entityChunks).trace) := by
      unfold run
      dsimp only
      rw [hep]
    rw [hrun] at hok
    obtain ⟨ef, fo, n1, n2, hcontra⟩ := hok
    exact absurd hcontra (by simp)
  | none =>
    cases hpg : processGrids w (gridIds w)
        ⟨false, 0, [], (entityPass w.entityChunks).trace
          ++ discoveryEvents w⟩ with
    | mk st errOpt =>
      cases errOpt with
      | some e =>
        have hrun : run w = (Outcome.fail e, st.trace) := by
          unfold run
          dsimp only
          rw [hep]
          dsimp only
          rw [hpg]
        rw [hrun] at hok
        obtain ⟨ef, fo, n1, n2, hcontra⟩ := hok
        exact absurd hcontra (by simp)
      | none =>
        cases hcb : st.corrupted with
        | true =>
          have hrun : run w = (Outcome.corrupt, st.trace) := by
            unfold run
            dsimp only
            rw [hep]
            dsimp only
            rw [hpg]
            dsimp only
            rw [hcb]
            simp
          rw [hrun] at hok
          obtain ⟨ef, fo, n1, n2, hcontra⟩ := hok
          exact absurd hcontra (by simp)
        | false =>
          have hrun : run w = (Outcome.ok (entityPass w.entityChunks).files
              st.folder (entityPass w.entityChunks).numModified st.numComp,
              (st.trace ++ (if w.dstExists then [Event.removeDst] else []))
                ++ [Event.writeDst]) := by
            unfold run
            dsimp only
            rw [hep]
            dsimp only
            rw [hpg]
            dsimp only
            rw [hcb]
            simp
          rw [hrun]
          constructor
          · exact List.mem_append_right _ (List.mem_singleton.mpr rfl)
          · apply postCommit_append_writeDst
            intro hmem
            rcases List.mem_append.mp hmem with h | h
            · have hnof := (scanTrace_noFile w (gridIds w)
                ⟨false, 0, [], (entityPass w.entityChunks).trace
                  ++ discoveryEvents w⟩ (initTrace_shape w)).1
              rw [hpg] at hnof
              exact hnof h
            · by_cases hde : w.dstExists
              · rw [if_pos hde] at h
                exact Event.noConfusion (List.mem_singleton.mp h)
              · rw [if_neg hde] at h
                cases h

theorem noPostCommitVerificationWitness :
    Event.writeDst ∈ (run w1).2 ∧ postCommit (run w1).2 = [] :=
  noPostCommitVerification w1
    ⟨[("0.mps", [⟨some 7, "Entity_Wheel01", true⟩])], [], 1, 0, rfl⟩

end BrdbOpt
